import Mathlib

/-!
Verification development for the epubfind repository (epubfind.py and
epubsearch.py): a phrase-search utility for EPUB e-books.

The definitions below are a shallow embedding of the Python source.
Pure functions become Lean functions; the per-book scanning loop of
Epub.search becomes an explicit fold over a stream of heading/paragraph
nodes; fallible steps (HTML parsing of a spine document, spine
construction from OPF metadata) return Except values.

Regular expressions: Patterns.__init__ (epubfind.py lines 56-62) builds,
for each phrase, the regex string  \b <phrase with whitespace runs
replaced by \s+> \b  and compiles it with IGNORECASE and DOTALL.  We
model the compiled object at two levels:
 - CompiledPattern: the regex source string plus its two flags, exactly
   as the Python code assembles them (used for the compilation claims);
 - a token list (RTok) giving the semantics that the Python re engine
   assigns to that regex string for phrases free of regex
   metacharacters: a word-boundary assertion, case-insensitive literal
   characters, and one-or-more-whitespace gaps.  The executable matcher
   below implements exactly those constructs, so concrete fixtures can
   be evaluated.
Character classes are modelled at ASCII level (the Python code also
accepts Unicode whitespace and word characters; every text in the
claims is ASCII).
-/

/-- Whitespace as matched by Python regex \s and str.strip (ASCII part). -/
def isPySpace (c : Char) : Bool :=
  c = ' ' || c = '\t' || c = '\n' || c = '\r' || c = '\x0b' || c = '\x0c'

/-- Word characters as matched by Python regex \w (ASCII part); used by the
word-boundary assertion \b. -/
def isWordChar (c : Char) : Bool :=
  c.isAlphanum || c = '_'

/-- Case-insensitive character comparison, modelling re.IGNORECASE on ASCII. -/
def eqIC (c d : Char) : Bool :=
  c.toLower = d.toLower

/-- Python str.strip(): drop leading and trailing whitespace. -/
def pyStrip (cs : List Char) : List Char :=
  ((cs.dropWhile isPySpace).reverse.dropWhile isPySpace).reverse

/-- The literal replacement text produced by re.sub(r'\s+', r'\\s+', s):
the three characters backslash, s, plus. -/
def wsToken : List Char := ['\\', 's', '+']

/-- Worker for subWs: inWs records whether the previous character belonged
to a whitespace run already replaced by wsToken. -/
def subWsAux (inWs : Bool) : List Char → List Char
  | [] => []
  | c :: cs =>
    if isPySpace c then
      if inWs then subWsAux true cs else wsToken ++ subWsAux true cs
    else
      c :: subWsAux false cs

/-- re.sub(r'\s+', r'\\s+', s): replace each maximal run of whitespace
characters by the literal text \s+ (epubfind.py line 60). -/
def subWs (cs : List Char) : List Char :=
  subWsAux false cs

/-- A compiled Python regex, modelled as its source string together with
the two flags the code passes to re.compile. -/
structure CompiledPattern where
  source : List Char
  ignorecase : Bool
  dotall : Bool
deriving DecidableEq

/-- The pattern built for one phrase by Patterns.__init__
(epubfind.py lines 59-62): strip the phrase, replace whitespace runs by
\s+, wrap in \b ... \b, compile with IGNORECASE|DOTALL. -/
def compilePhrase (phrase : String) : CompiledPattern :=
  { source := ['\\', 'b'] ++ subWs (pyStrip phrase.data) ++ ['\\', 'b'],
    ignorecase := true,
    dotall := true }

/-- dropWhile never lengthens a list (termination helper). -/
theorem dropWhile_len_le {α : Type} (p : α → Bool) :
    ∀ l : List α, (l.dropWhile p).length ≤ l.length
  | [] => Nat.le_refl 0
  | a :: l => by
    simp only [List.dropWhile]
    split
    · exact Nat.le_succ_of_le (dropWhile_len_le p l)
    · exact Nat.le_refl _

/-- Replacement of maximal whitespace runs written the way the
specification describes it: decompose the text into maximal runs; a
whitespace run becomes the one-or-more-whitespace token, any other run
is copied verbatim (so regex metacharacters pass through
uninterpreted). -/
def specReplaceRuns : List Char → List Char
  | [] => []
  | c :: cs =>
    if isPySpace c then
      wsToken ++ specReplaceRuns (cs.dropWhile isPySpace)
    else
      (c :: cs.takeWhile (fun d => !isPySpace d)) ++
        specReplaceRuns (cs.dropWhile (fun d => !isPySpace d))
termination_by cs => cs.length
decreasing_by
  all_goals exact Nat.lt_succ_of_le (dropWhile_len_le _ _)

/-- The compilation pipeline written following the wording of the
specification: trim, replace each maximal internal whitespace run by a
one-or-more-whitespace token, wrap in word-boundary anchors, compile
case-insensitively with dot-matches-newline.  To be compared with
compilePhrase, which is translated from the source. -/
def specCompilePhrase (phrase : String) : CompiledPattern :=
  { source := ['\\', 'b'] ++ specReplaceRuns (pyStrip phrase.data) ++ ['\\', 'b'],
    ignorecase := true,
    dotall := true }

/-- One token of the regex that compilePhrase assembles, read the way the
Python re engine reads that regex for phrases free of regex
metacharacters: a literal character (case-insensitive under IGNORECASE),
a one-or-more-whitespace gap (the \s+ inserted for each whitespace run),
or a word-boundary assertion (the surrounding \b). -/
inductive RTok where
  | lit (c : Char)
  | wsPlus
  | bound
deriving DecidableEq

/-- Tokenization parallel to subWsAux: whitespace runs become wsPlus,
other characters become case-insensitive literals. -/
def toksOfAux (inWs : Bool) : List Char → List RTok
  | [] => []
  | c :: cs =>
    if isPySpace c then
      if inWs then toksOfAux true cs else RTok.wsPlus :: toksOfAux true cs
    else
      RTok.lit c :: toksOfAux false cs

/-- Token list for a stripped phrase body. -/
def toksOf (cs : List Char) : List RTok :=
  toksOfAux false cs

/-- Token-level reading of the full compiled pattern for one phrase:
\b then the tokenized body of the stripped phrase then \b. -/
def phraseToks (cs : List Char) : List RTok :=
  RTok.bound :: (toksOf (pyStrip cs) ++ [RTok.bound])

/-- The regex text denoted by one token. -/
def renderTok : RTok → List Char
  | RTok.lit c => [c]
  | RTok.wsPlus => wsToken
  | RTok.bound => ['\\', 'b']

/-- Is the optional character a word character (none stands for the edge
of the text)? -/
def optWord : Option Char → Bool
  | none => false
  | some c => isWordChar c

/-- The \b assertion holds between the previous character and the start
of the remaining text exactly when wordness changes. -/
def wordBoundaryB (prev : Option Char) (cs : List Char) : Bool :=
  optWord prev != optWord cs.head?

/-- Match a token list against a prefix of cs, with prev the character
just before cs (none at the start of the text).  fuel is structural
recursion fuel; one unit is spent per step, and
toks.length + cs.length + 1 units always suffice because every step
shortens toks or cs. -/
def matchToks (fuel : Nat) (toks : List RTok) (cs : List Char)
    (prev : Option Char) : Bool :=
  match fuel with
  | 0 => false
  | fuel + 1 =>
    match toks with
    | [] => true
    | RTok.bound :: ts => wordBoundaryB prev cs && matchToks fuel ts cs prev
    | RTok.lit c :: ts =>
      match cs with
      | [] => false
      | d :: cs => eqIC c d && matchToks fuel ts cs (some d)
    | RTok.wsPlus :: ts =>
      match cs with
      | [] => false
      | d :: cs =>
        isPySpace d &&
          (matchToks fuel ts cs (some d) ||
            matchToks fuel (RTok.wsPlus :: ts) cs (some d))

/-- Try a match at the current position, else advance one character:
the search part of Pattern.search. -/
def searchFrom (fuel : Nat) (toks : List RTok) (prev : Option Char) :
    List Char → Bool
  | [] => matchToks fuel toks [] prev
  | d :: cs => matchToks fuel toks (d :: cs) prev || searchFrom fuel toks (some d) cs

/-- Pattern.search(text) as a Bool: does the token pattern match
anywhere in the text? -/
def searchToks (toks : List RTok) (cs : List Char) : Bool :=
  searchFrom (toks.length + cs.length + 1) toks none cs

/-- The Patterns class of epubfind.py: the list of compiled patterns,
one per phrase, at token level. -/
structure Patterns where
  patterns : List (List RTok)
deriving DecidableEq

/-- Patterns.__init__ (epubfind.py lines 56-62): compile every phrase. -/
def Patterns.compile (phrases : List String) : Patterns :=
  ⟨phrases.map (fun p => phraseToks p.data)⟩

/-- Patterns.match (epubfind.py lines 63-64), named matchText because
match is a Lean keyword: all(p.search(text) for p in self.patterns). -/
def Patterns.matchText (ps : Patterns) (text : String) : Bool :=
  ps.patterns.all (fun p => searchToks p text.data)

/-- The character just before the current position: the last character
of the consumed prefix pre, or the outer prev when pre is empty. -/
def prevAfter (prev : Option Char) : List Char → Option Char
  | [] => prev
  | c :: cs => prevAfter (some c) cs

/-- The pattern finds at least one occurrence somewhere in the text:
some split of the text lets the token list match at the split point. -/
def FindsOcc (toks : List RTok) (cs : List Char) : Prop :=
  ∃ pre post : List Char, cs = pre ++ post ∧
    matchToks (toks.length + cs.length + 1) toks post (prevAfter none pre) = true

/-!
The scanning loop of Epub.search (epubfind.py lines 116-133).

Each spine document contributes, via document.xpath of p, h1, h2 and h3
elements, a stream of nodes in document order; a node is a heading
(tag other than p) or a paragraph, and carries its flattened text
content.  The loop keeps the accumulated chapter list, the matching
paragraphs accumulated for the pending heading, and the pending heading
text, which is seeded with the book title.
-/

/-- One extracted element: a heading (h1, h2 or h3) or a paragraph, with
its text content. -/
inductive Node where
  | heading (text : String)
  | para (text : String)
deriving DecidableEq

/-- The ChapterResult named tuple: a heading and the matching paragraph
texts grouped under it.  The Python code stores the paragraph elements;
only their text content is ever consumed (by show), so the embedding
stores the texts. -/
structure ChapterResult where
  heading : String
  paragraphs : List String
deriving DecidableEq

/-- The loop state of Epub.search: the chapters list, the paragraphs
accumulator, and the pending heading. -/
structure SearchState where
  chapters : List ChapterResult
  paragraphs : List String
  heading : String
deriving DecidableEq

/-- Initial state: empty accumulators, heading seeded with the book
title (epubfind.py lines 117-119). -/
def initState (title : String) : SearchState :=
  { chapters := [], paragraphs := [], heading := title }

/-- The loop body of Epub.search for one extracted element
(epubfind.py lines 122-130): on a heading, emit the pending group when
the accumulator is non-empty or the pending heading text itself matches,
then make the new text pending; on a paragraph, accumulate it when its
text matches. -/
def stepNode (ps : Patterns) (st : SearchState) : Node → SearchState
  | Node.heading t =>
    if !st.paragraphs.isEmpty || ps.matchText st.heading then
      { chapters := st.chapters ++ [⟨st.heading, st.paragraphs⟩],
        paragraphs := [],
        heading := t }
    else
      { st with heading := t }
  | Node.para t =>
    if ps.matchText t then
      { st with paragraphs := st.paragraphs ++ [t] }
    else
      st

/-- Run the loop body over a stream of nodes. -/
def runNodes (ps : Patterns) (st : SearchState) (ns : List Node) : SearchState :=
  ns.foldl (stepNode ps) st

/-- The chapter list Epub.search builds for one node stream: run the
loop, then flush a final group when the accumulator is non-empty
(epubfind.py lines 131-132). -/
def searchGroups (ps : Patterns) (title : String) (ns : List Node) :
    List ChapterResult :=
  let st := runNodes ps (initState title) ns
  if st.paragraphs.isEmpty then st.chapters
  else st.chapters ++ [⟨st.heading, st.paragraphs⟩]

/-- The return value of Epub.search (epubfind.py line 133):
Result(self, chapters) if chapters else None, with the Result reduced to
its chapter list. -/
def searchResult (ps : Patterns) (title : String) (ns : List Node) :
    Option (List ChapterResult) :=
  let chapters := searchGroups ps title ns
  if chapters.isEmpty then none else some chapters

/-- Failure of read_html on one spine document (a lxml parse or archive
read error raised inside the spine loop). -/
inductive ScanError where
  | parseError
deriving DecidableEq

/-- The spine loop of Epub.search (epubfind.py lines 120-121) with
read_html made explicit: each spine url yields either a parse error or
its node stream.  Python has no handler inside the loop, so the first
error propagates out of Epub.search, discarding the state built so far. -/
def runDocs (ps : Patterns) (st : SearchState) :
    List (Except ScanError (List Node)) → Except ScanError SearchState
  | [] => Except.ok st
  | Except.error e :: _ => Except.error e
  | Except.ok ns :: rest => runDocs ps (runNodes ps st ns) rest

/-- Epub.search over the whole spine, with per-document read results as
input: run every document in order (propagating the first error), then
flush and build the optional result. -/
def epubSearch (ps : Patterns) (title : String)
    (docs : List (Except ScanError (List Node))) :
    Except ScanError (Option (List ChapterResult)) :=
  match runDocs ps (initState title) docs with
  | Except.error e => Except.error e
  | Except.ok st =>
    Except.ok
      (let chapters :=
        if st.paragraphs.isEmpty then st.chapters
        else st.chapters ++ [⟨st.heading, st.paragraphs⟩]
      if chapters.isEmpty then none else some chapters)

/-- The per-book loop of main (epubfind.py lines 185-196): each book
either raises (the exception is recorded and the run continues) or
yields an optional result (shown when present).  Returns the shown
results and the recorded errors, each in encounter order. -/
def runBooks :
    List (Except ScanError (Option (List ChapterResult))) →
      List (List ChapterResult) × List ScanError
  | [] => ([], [])
  | Except.error e :: bs => ((runBooks bs).1, e :: (runBooks bs).2)
  | Except.ok none :: bs => runBooks bs
  | Except.ok (some r) :: bs => (r :: (runBooks bs).1, (runBooks bs).2)

/-!
Epub.__init__ (epubfind.py lines 74-90): title extraction and spine
construction from the OPF metadata.
-/

/-- The error taxonomy for opening a book.  metadataError models the
exception raised when OPF metadata is malformed; in the Python source
the missing-manifest-id case surfaces as the KeyError raised by the
hrefs dict lookup, which main catches per book exactly like the other
metadata failures. -/
inductive EpubError where
  | archiveError
  | metadataError
deriving DecidableEq

/-- Title extraction (epubfind.py lines 81-82): the first dc:title text,
stripped, or the archive file name when no dc:title element exists. -/
def computeTitle (titleTexts : List String) (filename : String) : String :=
  match titleTexts with
  | [] => filename
  | t :: _ => t.trim

/-- Lookup in the hrefs dict built from the OPF manifest items
(epubfind.py lines 85-87); insertion order makes the last binding for an
id win, as for a Python dict. -/
def hrefsLookup (items : List (String × String)) (k : String) : Option String :=
  items.foldl (fun acc it => if it.1 = k then some it.2 else acc) none

/-- Spine construction (epubfind.py lines 88-90): map each itemref
through the hrefs dict in document order; a missing id raises
(KeyError in Python, classified as the metadata error of the spec
taxonomy), aborting the construction at the first missing reference. -/
def buildSpine (items : List (String × String)) :
    List String → Except EpubError (List String)
  | [] => Except.ok []
  | r :: rs =>
    match hrefsLookup items r with
    | none => Except.error EpubError.metadataError
    | some h => (buildSpine items rs).map (fun tl => h :: tl)

/-- The metadata part of Epub.__init__ after container and OPF parsing:
compute the title (with file-name fallback) and build the spine. -/
def epubInit (titleTexts : List String) (items : List (String × String))
    (itemrefs : List String) (filename : String) :
    Except EpubError (String × List String) :=
  let title := computeTitle titleTexts filename
  (buildSpine items itemrefs).map (fun spine => (title, spine))

/-!
Shared lemmas.
-/

/-- Characterization of searchFrom: the pattern matches at some split of
the text, with the character before the split tracked by prevAfter. -/
theorem searchFrom_iff (fuel : Nat) (toks : List RTok) :
    ∀ (cs : List Char) (prev : Option Char),
      searchFrom fuel toks prev cs = true ↔
        ∃ pre post : List Char, cs = pre ++ post ∧
          matchToks fuel toks post (prevAfter prev pre) = true
  | [], prev => by
    simp only [searchFrom]
    constructor
    · intro h
      exact ⟨[], [], rfl, h⟩
    · rintro ⟨pre, post, hsplit, hm⟩
      rcases List.append_eq_nil.mp hsplit.symm with ⟨hpre, hpost⟩
      subst hpre; subst hpost
      exact hm
  | d :: cs, prev => by
    simp only [searchFrom, Bool.or_eq_true]
    constructor
    · rintro (h | h)
      · exact ⟨[], d :: cs, rfl, h⟩
      · rcases (searchFrom_iff fuel toks cs (some d)).mp h with ⟨pre, post, hsplit, hm⟩
        exact ⟨d :: pre, post, by rw [List.cons_append, ← hsplit], hm⟩
    · rintro ⟨pre, post, hsplit, hm⟩
      cases pre with
      | nil =>
        left
        cases hsplit
        exact hm
      | cons d' pre' =>
        right
        rw [List.cons_append] at hsplit
        injection hsplit with h1 h2
        subst h1
        exact (searchFrom_iff fuel toks cs (some d)).mpr ⟨pre', post, h2, hm⟩

/-- toksOfAux tokenizes exactly the text that subWsAux produces. -/
theorem renderToks_eq_subWsAux :
    ∀ (cs : List Char) (b : Bool),
      ((toksOfAux b cs).map renderTok).flatten = subWsAux b cs
  | [], _ => rfl
  | c :: cs, b => by
    by_cases hc : isPySpace c
    · cases b with
      | true =>
        simp only [toksOfAux, subWsAux, hc, if_true]
        exact renderToks_eq_subWsAux cs true
      | false =>
        simp only [toksOfAux, subWsAux, hc, if_true]
        simp only [Bool.false_eq_true, if_false, List.map_cons, List.flatten_cons]
        rw [renderToks_eq_subWsAux cs true]
        rfl
    · simp only [toksOfAux, subWsAux, hc, Bool.false_eq_true, if_false,
        List.map_cons, List.flatten_cons]
      rw [renderToks_eq_subWsAux cs false]
      rfl

/-- Coherence of the two pattern models: rendering the token list of a
phrase yields exactly the regex source string that compilePhrase builds. -/
theorem compile_source_renders (phrase : String) :
    (compilePhrase phrase).source = ((phraseToks phrase.data).map renderTok).flatten := by
  simp only [compilePhrase, phraseToks, toksOf, List.map_cons, List.map_append,
    List.flatten_cons, List.flatten_append, subWs]
  rw [renderToks_eq_subWsAux]
  rfl

/-- In subWsAux, the inWs flag is equivalent to first dropping the
leading whitespace run. -/
theorem subWsAux_true_eq_drop :
    ∀ cs : List Char, subWsAux true cs = subWsAux false (cs.dropWhile isPySpace)
  | [] => rfl
  | c :: cs => by
    by_cases hc : isPySpace c
    · simp only [subWsAux, hc, if_true, List.dropWhile, subWsAux_true_eq_drop cs]
    · simp only [subWsAux, hc, if_false, List.dropWhile, Bool.false_eq_true]

/-- specReplaceRuns always factors through its leading maximal
non-whitespace run. -/
theorem specReplaceRuns_factor (cs : List Char) :
    specReplaceRuns cs =
      cs.takeWhile (fun d => !isPySpace d) ++
        specReplaceRuns (cs.dropWhile (fun d => !isPySpace d)) := by
  cases cs with
  | nil => rfl
  | cons c cs =>
    by_cases hc : isPySpace c
    · rw [specReplaceRuns]
      simp [hc, List.takeWhile_cons, List.dropWhile_cons]
      rw [specReplaceRuns]
      simp [hc]
    · rw [specReplaceRuns]
      simp [hc, List.takeWhile_cons, List.dropWhile_cons]

/-- The source whitespace substitution and the run-by-run description of
the specification agree (fuel-indexed induction). -/
theorem subWs_eq_spec_aux :
    ∀ (n : Nat) (cs : List Char), cs.length ≤ n →
      subWsAux false cs = specReplaceRuns cs := by
  intro n
  induction n with
  | zero =>
    intro cs h
    have : cs = [] := List.eq_nil_of_length_eq_zero (Nat.le_zero.mp h)
    subst this
    simp [subWsAux, specReplaceRuns]
  | succ n ih =>
    intro cs h
    cases cs with
    | nil => simp [subWsAux, specReplaceRuns]
    | cons c cs =>
      by_cases hc : isPySpace c
      · rw [specReplaceRuns]
        simp only [subWsAux, hc, if_true]
        rw [subWsAux_true_eq_drop]
        rw [ih (cs.dropWhile isPySpace)
          (Nat.le_trans (dropWhile_len_le _ cs) (Nat.le_of_succ_le_succ h))]
        simp
      · rw [specReplaceRuns]
        simp only [subWsAux, hc, Bool.false_eq_true, if_false]
        rw [ih cs (Nat.le_of_succ_le_succ h)]
        rw [specReplaceRuns_factor cs]
        simp [List.cons_append]

/-- The source whitespace substitution equals the run-by-run description
of the specification. -/
theorem subWs_eq_specReplaceRuns (cs : List Char) :
    subWs cs = specReplaceRuns cs :=
  subWs_eq_spec_aux cs.length cs (Nat.le_refl _)

/-- Loop invariant of Epub.search: any chapter on the chapters list that
has no paragraphs was emitted because its own heading text matched the
patterns (the emission condition with an empty accumulator forces the
match). -/
theorem emptyGroup_inv (ps : Patterns) :
    ∀ (ns : List Node) (st : SearchState),
      (∀ g ∈ st.chapters, g.paragraphs = [] → ps.matchText g.heading = true) →
      ∀ g ∈ (runNodes ps st ns).chapters, g.paragraphs = [] →
        ps.matchText g.heading = true := by
  intro ns
  induction ns with
  | nil => intro st hst; exact hst
  | cons n ns ih =>
    intro st hst
    have hstep : ∀ g ∈ (stepNode ps st n).chapters, g.paragraphs = [] →
        ps.matchText g.heading = true := by
      cases n with
      | heading t =>
        simp only [stepNode]
        by_cases hcond : (!st.paragraphs.isEmpty || ps.matchText st.heading) = true
        · rw [if_pos hcond]
          intro g hg hgp
          rcases List.mem_append.mp hg with hold | hnew
          · exact hst g hold hgp
          · have hgeq : g = ⟨st.heading, st.paragraphs⟩ := by
              simpa using hnew
            subst hgeq
            rcases Bool.or_eq_true .. |>.mp hcond with hne | hmatch
            · exfalso
              have : st.paragraphs.isEmpty = true := by
                simp [List.isEmpty_iff]
                simpa using hgp
              simp [this] at hne
            · exact hmatch
        · rw [if_neg hcond]
          exact hst
      | para t =>
        simp only [stepNode]
        by_cases hm : ps.matchText t = true
        · rw [if_pos hm]; exact hst
        · rw [if_neg hm]; exact hst
    exact ih (stepNode ps st n) hstep

/-- Inside the spine loop there is no exception handler: the first
document whose read fails makes the whole of runDocs fail with that
error, whatever state had been accumulated. -/
theorem runDocs_error (ps : Patterns) (e : ScanError)
    (post : List (Except ScanError (List Node))) :
    ∀ (pre : List (List Node)) (st : SearchState),
      runDocs ps st (pre.map Except.ok ++ Except.error e :: post) =
        Except.error e
  | [], _ => rfl
  | ns :: pre, st => by
    simp only [List.map_cons, List.cons_append, runDocs]
    exact runDocs_error ps e post pre (runNodes ps st ns)

/-- A book whose search raised is only recorded in the error list; the
result list is the one of the run without that book, and the error is
recorded. -/
theorem runBooks_error (e : ScanError)
    (bs2 : List (Except ScanError (Option (List ChapterResult)))) :
    ∀ bs1 : List (Except ScanError (Option (List ChapterResult))),
      (runBooks (bs1 ++ Except.error e :: bs2)).1 = (runBooks (bs1 ++ bs2)).1 ∧
        e ∈ (runBooks (bs1 ++ Except.error e :: bs2)).2
  | [] => by
    simp only [List.nil_append, runBooks]
    exact ⟨by simp, List.mem_cons_self _ _⟩
  | Except.error e' :: bs1 => by
    have ih := runBooks_error e bs2 bs1
    simp only [List.cons_append, runBooks]
    exact ⟨ih.1, List.mem_cons_of_mem _ ih.2⟩
  | Except.ok none :: bs1 => by
    have ih := runBooks_error e bs2 bs1
    simp only [List.cons_append, runBooks]
    exact ih
  | Except.ok (some res) :: bs1 => by
    have ih := runBooks_error e bs2 bs1
    simp only [List.cons_append, runBooks]
    exact ⟨congrArg (fun l => res :: l) ih.1, ih.2⟩

/-!
Concrete fixtures shared by several claims.
-/

/-- The phrase set for the single phrase cat. -/
def catPatterns : Patterns := Patterns.compile ["cat"]

/-- The node stream of the grouping fixture from the specification. -/
def fixtureNodes : List Node :=
  [Node.heading "Intro", Node.para "no match here", Node.heading "Chapter One",
   Node.para "the cat sat", Node.para "irrelevant", Node.heading "Chapter Two",
   Node.para "the cat ran"]

/-!
The claims.
-/

/-- Claim C1, counterexample to the claim as stated: with the phrase set
cat and a book title T that does not match it, the stream consisting of
the headings cat A and B makes the code emit the ChapterGroup
(cat A, []) with an empty paragraph list — an empty group produced at a
later heading transition, whose heading is not the title-seeded pending
heading, and whose title does not match the phrase set. -/
theorem c1_counterexample :
    catPatterns.matchText "T" = false ∧
    searchGroups catPatterns "T" [Node.heading "cat A", Node.heading "B"] =
      [⟨"cat A", []⟩] :=
  ⟨by decide, by decide⟩

/-- Claim C1, amended: a ChapterGroup with an empty paragraph list can be
emitted at any heading transition, not only the first; whenever a group
of searchGroups has an empty paragraph list, its own heading text
matched the phrase set (the code checks patterns.match(heading) at every
heading transition, and the end-of-stream group always has a paragraph). -/
theorem c1_empty_group_heading_matched (ps : Patterns) (title : String)
    (ns : List Node) (g : ChapterResult)
    (hg : g ∈ searchGroups ps title ns) (hp : g.paragraphs = []) :
    ps.matchText g.heading = true := by
  have hinv := emptyGroup_inv ps ns (initState title)
    (by intro g' hg' _; simp [initState] at hg')
  simp only [searchGroups] at hg
  by_cases h : (runNodes ps (initState title) ns).paragraphs.isEmpty
  · rw [if_pos h] at hg
    exact hinv g hg hp
  · rw [if_neg h] at hg
    rcases List.mem_append.mp hg with hold | hnew
    · exact hinv g hold hp
    · exfalso
      have hgeq : g = ⟨(runNodes ps (initState title) ns).heading,
          (runNodes ps (initState title) ns).paragraphs⟩ := by
        simpa using hnew
      rw [hgeq] at hp
      simp only at hp
      exact h (by simp [hp])

/-- Claim C1, witness: in the counterexample stream the emitted empty
group carries the heading cat A, and the amended theorem yields that
this heading matches the phrase set. -/
theorem c1_empty_group_heading_matched_witness :
    (⟨"cat A", []⟩ : ChapterResult) ∈
        searchGroups catPatterns "T" [Node.heading "cat A", Node.heading "B"] ∧
      catPatterns.matchText "cat A" = true :=
  ⟨by decide,
    c1_empty_group_heading_matched catPatterns "T"
      [Node.heading "cat A", Node.heading "B"] ⟨"cat A", []⟩ (by decide) rfl⟩

/-- Claim C2, counterexample to the claim as stated: a parse failure on
the middle spine document makes Epub.search fail outright — no partial
result is assembled — although running the two good documents alone
would have produced a BookResult with both matching paragraphs. -/
theorem c2_counterexample :
    epubSearch catPatterns "T"
        [Except.ok [Node.para "the cat sat"], Except.error ScanError.parseError,
         Except.ok [Node.para "the cat ran"]] =
      Except.error ScanError.parseError ∧
    epubSearch catPatterns "T"
        [Except.ok [Node.para "the cat sat"], Except.ok [Node.para "the cat ran"]] =
      Except.ok (some [⟨"T", ["the cat sat", "the cat ran"]⟩]) :=
  ⟨rfl, rfl⟩

/-- Claim C2, amended: a parse failure on any spine document aborts that
book entirely — Epub.search propagates the error and no BookResult, not
even a partial one, is produced for that book; the per-book handler of
main records the error and the results of the other books of the run
are unaffected. -/
theorem c2_parse_error_aborts_book_not_run (ps : Patterns) (title : String)
    (pre : List (List Node)) (e : ScanError)
    (post : List (Except ScanError (List Node)))
    (bs1 bs2 : List (Except ScanError (Option (List ChapterResult)))) :
    epubSearch ps title (pre.map Except.ok ++ Except.error e :: post) =
        Except.error e ∧
      (runBooks (bs1 ++ Except.error e :: bs2)).1 = (runBooks (bs1 ++ bs2)).1 ∧
      e ∈ (runBooks (bs1 ++ Except.error e :: bs2)).2 := by
  refine ⟨?_, runBooks_error e bs2 bs1⟩
  unfold epubSearch
  rw [runDocs_error]

/-- Claim C3: Patterns.match is the conjunction of the individual
pattern searches — the text matches the phrase set exactly when every
compiled pattern finds at least one occurrence somewhere in the text,
the order and positions of those occurrences being irrelevant. -/
theorem c3_conjunction_of_patterns (P : List String) (T : String) :
    (Patterns.compile P).matchText T = true ↔
      ∀ p ∈ (Patterns.compile P).patterns, FindsOcc p T.data := by
  simp only [Patterns.matchText, List.all_eq_true]
  constructor
  · intro h p hp
    exact (searchFrom_iff _ p T.data none).mp (h p hp)
  · intro h p hp
    exact (searchFrom_iff _ p T.data none).mpr (h p hp)

/-- Claim C4: for every input phrase, the pattern built by
Patterns.__init__ coincides with the compilation pipeline the
specification describes — trim, replace each maximal internal
whitespace run by a one-or-more-whitespace token (other characters,
regex metacharacters included, pass through unchanged), wrap in
word-boundary anchors, compile case-insensitively with
dot-matches-newline. -/
theorem c4_compile_follows_spec (phrase : String) :
    compilePhrase phrase = specCompilePhrase phrase := by
  simp only [compilePhrase, specCompilePhrase, subWs_eq_specReplaceRuns]

/-- Claim C5: the literal fixture stream searched for the phrase cat,
under any book title that does not itself match, yields exactly the two
chapters Chapter One with the cat sat and Chapter Two with the cat ran. -/
theorem c5_fixture_grouping (title : String)
    (h : catPatterns.matchText title = false) :
    searchGroups catPatterns title fixtureNodes =
      [⟨"Chapter One", ["the cat sat"]⟩, ⟨"Chapter Two", ["the cat ran"]⟩] := by
  have hstep : stepNode catPatterns (initState title) (Node.heading "Intro") =
      initState "Intro" := by
    simp [stepNode, initState, h]
  simp only [searchGroups, runNodes, fixtureNodes]
  rw [List.foldl_cons, hstep]
  decide

/-- Claim C5, witness: the fixture evaluated at the concrete
non-matching title Book. -/
theorem c5_fixture_grouping_witness :
    catPatterns.matchText "Book" = false ∧
    searchGroups catPatterns "Book" fixtureNodes =
      [⟨"Chapter One", ["the cat sat"]⟩, ⟨"Chapter Two", ["the cat ran"]⟩] :=
  ⟨by decide, c5_fixture_grouping "Book" (by decide)⟩

/-- Claim C6: when the node stream leaves a non-empty paragraph
accumulator, Epub.search emits one final ChapterGroup consisting of the
pending heading and that accumulator, so no matching paragraphs are
dropped at end of stream. -/
theorem c6_trailing_flush (ps : Patterns) (title : String) (ns : List Node)
    (h : (runNodes ps (initState title) ns).paragraphs ≠ []) :
    searchGroups ps title ns =
      (runNodes ps (initState title) ns).chapters ++
        [⟨(runNodes ps (initState title) ns).heading,
          (runNodes ps (initState title) ns).paragraphs⟩] := by
  simp only [searchGroups]
  rw [if_neg (by simp [h])]

/-- Claim C6, witness: a one-paragraph stream whose paragraph matches
leaves a non-empty accumulator and is flushed as the final group. -/
theorem c6_trailing_flush_witness :
    (runNodes catPatterns (initState "T") [Node.para "a cat"]).paragraphs ≠ [] ∧
    searchGroups catPatterns "T" [Node.para "a cat"] =
      (runNodes catPatterns (initState "T") [Node.para "a cat"]).chapters ++
        [⟨(runNodes catPatterns (initState "T") [Node.para "a cat"]).heading,
          (runNodes catPatterns (initState "T") [Node.para "a cat"]).paragraphs⟩] :=
  ⟨by decide, c6_trailing_flush catPatterns "T" [Node.para "a cat"] (by decide)⟩

/-- Claim C7: Epub.search returns None exactly when no ChapterGroup was
emitted; otherwise it returns precisely the emitted groups, and never a
result with an empty chapter list. -/
theorem c7_none_iff_no_groups (ps : Patterns) (title : String) (ns : List Node) :
    (searchResult ps title ns = none ↔ searchGroups ps title ns = []) ∧
      ∀ ch, searchResult ps title ns = some ch →
        ch = searchGroups ps title ns ∧ ch ≠ [] := by
  simp only [searchResult]
  by_cases h : (searchGroups ps title ns).isEmpty
  · rw [if_pos h]
    have he : searchGroups ps title ns = [] := by simpa using h
    exact ⟨iff_of_true rfl he, fun ch hch => by cases hch⟩
  · rw [if_neg h]
    have he : searchGroups ps title ns ≠ [] := by simpa using h
    constructor
    · constructor
      · intro hc; cases hc
      · intro hc; exact absurd hc he
    · intro ch hch
      injection hch with h1
      exact ⟨h1.symm, h1 ▸ he⟩

/-- Claim C7, witness: a stream with one matching paragraph produces
some result; the theorem yields that it equals the emitted groups and
is non-empty. -/
theorem c7_none_iff_no_groups_witness :
    [(⟨"T", ["a cat"]⟩ : ChapterResult)] =
        searchGroups catPatterns "T" [Node.para "a cat"] ∧
      [(⟨"T", ["a cat"]⟩ : ChapterResult)] ≠ [] :=
  (c7_none_iff_no_groups catPatterns "T" [Node.para "a cat"]).2
    [⟨"T", ["a cat"]⟩] (by decide)

/-- Claim C8: when the OPF metadata has no dc:title element, opening
succeeds with the archive file name as the title — the outcome of
Epub.__init__ is exactly the outcome of spine construction, with the
file name in the title slot, so opening never fails solely for a
missing title. -/
theorem c8_missing_title_falls_back (items : List (String × String))
    (itemrefs : List String) (filename : String) :
    computeTitle [] filename = filename ∧
    epubInit [] items itemrefs filename =
      (buildSpine items itemrefs).map (fun spine => (filename, spine)) :=
  ⟨rfl, rfl⟩

/-- Claim C9: a spine itemref whose idref is absent from the manifest
id-to-href mapping makes spine construction fail, and the failure is
the metadata error of the error taxonomy (the KeyError of the Python
dict lookup) and no other kind. -/
theorem c9_missing_idref_metadata_error (items : List (String × String))
    (itemrefs : List String)
    (h : ∃ r ∈ itemrefs, hrefsLookup items r = none) :
    buildSpine items itemrefs = Except.error EpubError.metadataError := by
  induction itemrefs with
  | nil => rcases h with ⟨r, hr, _⟩; cases hr
  | cons r0 rs ih =>
    rcases h with ⟨r, hr, hnone⟩
    cases hlook : hrefsLookup items r0 with
    | none => simp [buildSpine, hlook]
    | some h0 =>
      rcases List.mem_cons.mp hr with heq | hmem
      · subst heq; rw [hlook] at hnone; cases hnone
      · rw [buildSpine, hlook, ih ⟨r, hmem, hnone⟩]
        rfl

/-- Claim C9, witness: a manifest with only a cover item and a spine
referencing chap1 fails with the metadata error. -/
theorem c9_missing_idref_metadata_error_witness :
    (∃ r ∈ ["chap1"], hrefsLookup [("cover", "cover.xhtml")] r = none) ∧
    buildSpine [("cover", "cover.xhtml")] ["chap1"] =
      Except.error EpubError.metadataError :=
  ⟨⟨"chap1", by decide, by decide⟩,
    c9_missing_idref_metadata_error [("cover", "cover.xhtml")] ["chap1"]
      ⟨"chap1", by decide, by decide⟩⟩

/-- Claim C10: compiling an empty phrase list succeeds and produces a
pattern set with no patterns, which matches every text — the
conjunction over zero patterns is vacuously true, so the non-emptiness
invariant on PhraseSet is not enforced by compilation. -/
theorem c10_empty_phrase_list_matches_all (T : String) :
    (Patterns.compile []).patterns = [] ∧
    (Patterns.compile []).matchText T = true :=
  ⟨rfl, rfl⟩





